import Mathlib

/-!
Verification of the Workout Tracker application's pure core.

The development shallowly embeds the pure computations of the app:

* the statistics aggregation performed by the `PersonalStatistics` component
  (file `src/workout-app/src/components/SetUsername.jsx`): totals, most
  frequent exercise and averages over a list of fetched workout records;
* the date-descending sort applied to fetched records by the
  `WorkoutHistory` and `PersonalStatistics` components;
* the workout-session draft handlers of the `LogWorkout` component
  (`handleAddExerciseToWorkout`, `handleUpdateExerciseDetails`,
  `handleSaveWorkout`).

JavaScript numbers are modelled as rationals (all numeric values in the app
arise from integer literals and `parseFloat` of user input; `NaN` never
reaches the statistics code because `handleSaveWorkout` normalises values
first).  A possibly-missing or possibly-non-numeric field is an `Option`.
JavaScript objects used as count tables are association lists kept in
property-creation order, and `for...in` enumeration order follows the
ECMAScript own-property order: array-index-like keys first in ascending
numeric order, then the remaining string keys in creation order.
-/

namespace WorkoutTracker

/-- an exercise entry inside a fetched workout record, as read by the
statistics effect of `PersonalStatistics`.  `weight`, `sets` and `reps`
hold `some q` when the stored field is a numeric value and `none` when the
field is missing or non-numeric; `exerciseName` is the stored string, a
missing name being modelled by the empty string (both are falsy). -/
structure StatExercise where
  exerciseName : String
  weight : Option ℚ
  sets : Option ℚ
  reps : Option ℚ
deriving DecidableEq

/-- a fetched workout record as read by the statistics effect.
`exercisesPerformed` is `some l` when the stored field is an array and
`none` when it is missing, null, or not an array. -/
structure WorkoutRecord where
  exercisesPerformed : Option (List StatExercise)
deriving DecidableEq

/-- the truthiness-plus-typeof guard on one numeric field, as in
`exercise.weight && typeof exercise.weight === 'number'`: it holds exactly
when the field is a present number other than 0. -/
def numTruthy : Option ℚ → Bool
  | none => false
  | some q => q != 0

/-- contribution of one exercise entry to `totalVolume` in the statistics
effect: `totalVolume += exercise.weight * exercise.sets` runs only under the
guard `exercise.weight && typeof ... && exercise.sets && typeof ...`. -/
def exVolume (e : StatExercise) : ℚ :=
  if numTruthy e.weight && numTruthy e.sets then e.weight.getD 0 * e.sets.getD 0
  else 0

/-- the exercise list of one record that the effect iterates over: the loop
body runs only under the guard
`workout.exercisesPerformed && Array.isArray(workout.exercisesPerformed)`,
so a missing or non-array field contributes nothing. -/
def recExercises (w : WorkoutRecord) : List StatExercise :=
  w.exercisesPerformed.getD []

/-- the defaulted name of an exercise entry, as in
`const name = exercise.exerciseName || 'Unknown Exercise'`. -/
def exName (e : StatExercise) : String :=
  if e.exerciseName = "" then "Unknown Exercise" else e.exerciseName

/-- one step of `exerciseCounts[name] = (exerciseCounts[name] || 0) + 1` on
a JavaScript object modelled as an association list in property-creation
order: an existing key is incremented in place, a new key is appended. -/
def bumpCount : List (String × ℕ) → String → List (String × ℕ)
  | [], name => [(name, 1)]
  | (k, c) :: rest, name =>
    if k = name then (k, c + 1) :: rest else (k, c) :: bumpCount rest name

/-- the `exerciseCounts` object built by the two nested `forEach` loops of
the statistics effect. -/
def exerciseCounts (workouts : List WorkoutRecord) : List (String × ℕ) :=
  workouts.foldl
    (fun acc w => (recExercises w).foldl (fun acc2 e => bumpCount acc2 (exName e)) acc) []

/-- the numeric value denoted by a list of decimal digit characters. -/
def digitsVal (l : List Char) : ℕ :=
  l.foldl (fun n c => 10 * n + (c.toNat - 48)) 0

/-- whether a JavaScript property key is a canonical array index: the
decimal string form, without leading zero, of an integer strictly below
2^32 - 1.  Such keys enumerate before every other string key in a
`for...in` loop, in ascending numeric order. -/
def isArrayIndexKey (s : String) : Bool :=
  s == "0" ||
    (!s.data.isEmpty && s.data.all (fun c => c.isDigit) &&
      s.data.head? != some '0' && decide (digitsVal s.data < 4294967295))

/-- the `for...in` enumeration order of a count object per the ECMAScript
own-property order: array-index-like keys in ascending numeric order first,
then the remaining keys in property-creation order. -/
def enumOrder (counts : List (String × ℕ)) : List (String × ℕ) :=
  (counts.filter (fun p => isArrayIndexKey p.1)).insertionSort
      (fun a b => digitsVal a.1.data ≤ digitsVal b.1.data)
    ++ counts.filter (fun p => !isArrayIndexKey p.1)

/-- the maximum scan of the statistics effect:
`let mostFrequent = 'N/A'; let maxCount = 0;` then
`for (const exerciseName in exerciseCounts)` replace the pair whenever
`exerciseCounts[exerciseName] > maxCount`. -/
def mostFrequentOf (counts : List (String × ℕ)) : String :=
  ((enumOrder counts).foldl (fun acc p => if p.2 > acc.2 then p else acc) ("N/A", 0)).1

/-- the record held in the `stats` state of `PersonalStatistics`. -/
structure Stats where
  totalWorkouts : ℕ
  totalExercisesLogged : ℕ
  totalVolumeLifted : ℚ
  mostFrequentExercise : String
  averageExercisesPerWorkout : ℚ
deriving DecidableEq

/-- the statistics effect of `PersonalStatistics`: with no workouts the
stats are reset to zeros and `'N/A'`; otherwise the totals are accumulated
over every record, the count table is scanned for the most frequent name,
and the average is `totalExercises / workouts.length` guarded by
`workouts.length > 0`. -/
def computeStats (workouts : List WorkoutRecord) : Stats :=
  if workouts.isEmpty then
    { totalWorkouts := 0, totalExercisesLogged := 0, totalVolumeLifted := 0,
      mostFrequentExercise := "N/A", averageExercisesPerWorkout := 0 }
  else
    let totalExercises := (workouts.map (fun w => (recExercises w).length)).sum
    let totalVolume := (workouts.map (fun w => ((recExercises w).map exVolume).sum)).sum
    let mostFrequent := mostFrequentOf (exerciseCounts workouts)
    let averageExercises : ℚ :=
      if workouts.length > 0 then (totalExercises : ℚ) / (workouts.length : ℚ) else 0
    { totalWorkouts := workouts.length, totalExercisesLogged := totalExercises,
      totalVolumeLifted := totalVolume, mostFrequentExercise := mostFrequent,
      averageExercisesPerWorkout := averageExercises }

/-- the volume the specification ascribes to one exercise entry: `weight *
sets` when both are present numeric values, nothing otherwise. -/
def specExVolume (e : StatExercise) : ℚ :=
  match e.weight, e.sets with
  | some w, some s => w * s
  | _, _ => 0

/-- the specification's total volume: the sum of `weight * sets` over every
exercise entry, in every record, whose weight and sets are both present
numeric values. -/
def specTotalVolume (workouts : List WorkoutRecord) : ℚ :=
  (workouts.map (fun w => ((recExercises w).map specExVolume).sum)).sum

/-- every defaulted exercise name occurring in the records, in input
iteration order (records in list order, entries in array order). -/
def allNames (workouts : List WorkoutRecord) : List String :=
  (workouts.map (fun w => (recExercises w).map exName)).flatten

/-- the distinct names of a name list, each kept at its first encounter, in
first-encounter order. -/
def firstEncounterNames (names : List String) : List String :=
  names.foldl (fun ks n => if n ∈ ks then ks else ks ++ [n]) []

/-- the count a table assigns to a name: the value at the first matching
key, 0 when the key is absent. -/
def countOf : List (String × ℕ) → String → ℕ
  | [], _ => 0
  | (k, c) :: rest, n => if k = n then c else countOf rest n

/-- the keys of a count table, in table order. -/
def keysOf (counts : List (String × ℕ)) : List String :=
  counts.map Prod.fst

/-- the specification's most frequent exercise: scan the distinct names in
first-encounter order, keeping the first name whose occurrence count
strictly exceeds every count seen so far, starting from the sentinel
`("N/A", 0)`; so the result is the first-encountered name of maximal
occurrence count, and `"N/A"` when there is no name at all. -/
def specMostFrequent (workouts : List WorkoutRecord) : String :=
  ((firstEncounterNames (allNames workouts)).foldl
    (fun acc n =>
      if (allNames workouts).count n > acc.2 then (n, (allNames workouts).count n) else acc)
    ("N/A", 0)).1

/-- a fetched workout record as sorted by the `WorkoutHistory` and
`PersonalStatistics` components.  `date` holds `some t` with `t` the
millisecond timestamp (`getTime()`) of the converted date, and `none` when
the stored date was null or missing (the fetch maps it to `null`). -/
structure FetchedWorkout where
  id : String
  date : Option ℤ
deriving DecidableEq

/-- the sort key of the comparator
`(a, b) => (b.date?.getTime() || 0) - (a.date?.getTime() || 0)`:
a null date (and a date whose timestamp is exactly 0) yields 0. -/
def sortKey (w : FetchedWorkout) : ℤ :=
  w.date.getD 0

/-- the `fetchedWorkouts.sort(...)` call: a stable sort consistent with the
comparator, i.e. a stable sort by `sortKey` descending. -/
def sortWorkouts (l : List FetchedWorkout) : List FetchedWorkout :=
  l.insertionSort (fun a b => sortKey b ≤ sortKey a)

instance : IsTotal FetchedWorkout (fun a b => sortKey b ≤ sortKey a) :=
  ⟨fun a b => le_total (sortKey b) (sortKey a)⟩

instance : IsTrans FetchedWorkout (fun a b => sortKey b ≤ sortKey a) :=
  ⟨fun _ _ _ hab hbc => le_trans hbc hab⟩

/-- a value coming from a form input box, classified by how the numeric
handlers observe it: the empty string, a non-empty string that `parseFloat`
parses to `q`, or a non-empty string on which `parseFloat` yields `NaN`. -/
inductive InputVal
  | empty
  | numStr (q : ℚ)
  | nanStr (s : String)
deriving DecidableEq

/-- the value of a numeric draft field (`sets`, `reps` or `weight`): either
the empty string, kept as a transient value, or a number. -/
inductive NumVal
  | emptyStr
  | num (q : ℚ)
deriving DecidableEq

/-- one entry of the `workoutExercises` draft held by `LogWorkout`.  The
`notes` field is stored verbatim from the input box. -/
structure DraftEntry where
  exerciseName : String
  sets : NumVal
  reps : NumVal
  weight : NumVal
  notes : InputVal
deriving DecidableEq

/-- the field argument of `handleUpdateExerciseDetails`. -/
inductive Field
  | sets
  | reps
  | weight
  | notes
deriving DecidableEq

/-- an entry of the available-exercise catalog passed to
`handleAddExerciseToWorkout`; only its `name` is read. -/
structure CatalogEntry where
  name : String
deriving DecidableEq

/-- the numeric branch of `handleUpdateExerciseDetails`:
`value === '' ? '' : Math.max(0, parseFloat(value) || 0)`. -/
def normalizeNumInput : InputVal → NumVal
  | .empty => .emptyStr
  | .numStr q => .num (max 0 (if q = 0 then 0 else q))
  | .nanStr _ => .num (max 0 0)

/-- the object update performed on the selected entry: numeric fields go
through `normalizeNumInput`, the `notes` field passes through verbatim. -/
def setEntryField (item : DraftEntry) (field : Field) (value : InputVal) : DraftEntry :=
  match field with
  | .sets => { item with sets := normalizeNumInput value }
  | .reps => { item with reps := normalizeNumInput value }
  | .weight => { item with weight := normalizeNumInput value }
  | .notes => { item with notes := value }

/-- the handler `handleUpdateExerciseDetails(index, field, value)`:
`prev.map((item, i) => i === index ? updated-item : item)`. -/
def handleUpdateExerciseDetails (draft : List DraftEntry) (index : ℕ) (field : Field)
    (value : InputVal) : List DraftEntry :=
  draft.mapIdx (fun i item => if i = index then setEntryField item field value else item)

/-- the handler `handleAddExerciseToWorkout(exercise)`: when some draft item
already carries the exercise's name the draft is left unchanged and a
duplicate warning message is surfaced (second component `true`); otherwise
the exercise is appended with defaults `sets=1, reps=1, weight='', notes=''`
and no warning is shown. -/
def handleAddExerciseToWorkout (draft : List DraftEntry) (exercise : CatalogEntry) :
    List DraftEntry × Bool :=
  if draft.any (fun item => item.exerciseName == exercise.name) then (draft, true)
  else
    (draft ++ [{ exerciseName := exercise.name, sets := .num 1, reps := .num 1,
                 weight := .emptyStr, notes := .empty }], false)

/-- the numeric normalisation applied at save time, as in
`sets: ex.sets === '' ? 0 : parseFloat(ex.sets)` (and likewise for `reps`
and `weight`); `parseFloat` of a number is that number. -/
def submitNum : NumVal → ℚ
  | .emptyStr => 0
  | .num q => q

/-- one exercise of the `workoutData.exercisesPerformed` array built by
`handleSaveWorkout`; `notes` passes through verbatim. -/
structure PerformedExercise where
  exerciseName : String
  sets : ℚ
  reps : ℚ
  weight : ℚ
  notes : InputVal
deriving DecidableEq

/-- the map applied to each draft entry when building `workoutData`. -/
def submitEntry (ex : DraftEntry) : PerformedExercise :=
  { exerciseName := ex.exerciseName, sets := submitNum ex.sets, reps := submitNum ex.reps,
    weight := submitNum ex.weight, notes := ex.notes }

/-- a workout record inserted into the store by `handleSaveWorkout`.  The
`userId`, `date` and `createdAt` metadata fields are outside the embedding
(the server timestamp and the wall clock are not modelled). -/
structure SubmittedRecord where
  exercisesPerformed : List PerformedExercise
deriving DecidableEq

/-- the state acted on by `handleSaveWorkout`: whether the session is
authenticated (`userId` and `appId` both available), the current draft, and
the user's workout collection in the store, as the ordered list of inserted
records. -/
structure SessionState where
  authed : Bool
  draft : List DraftEntry
  store : List SubmittedRecord
deriving DecidableEq

/-- the observable outcome of a `handleSaveWorkout` call. -/
inductive SubmitOutcome
  | authError
  | validationError
  | saved
deriving DecidableEq

/-- the handler `handleSaveWorkout`: it rejects an unauthenticated session,
rejects an empty draft with a validation message and no store write, and
otherwise performs one `addDoc` insert of the whole mapped exercise list and
resets the draft to empty. -/
def handleSaveWorkout (s : SessionState) : SubmitOutcome × SessionState :=
  if !s.authed then (.authError, s)
  else if s.draft.length = 0 then (.validationError, s)
  else
    (.saved,
      { s with draft := [],
               store := s.store ++ [{ exercisesPerformed := s.draft.map submitEntry }] })

/-- a record with one exercise named A and no numeric fields. -/
def recA : WorkoutRecord := ⟨some [⟨"A", none, none, none⟩]⟩

/-- a record with one exercise named B and no numeric fields. -/
def recB : WorkoutRecord := ⟨some [⟨"B", none, none, none⟩]⟩

/-- a record whose single exercise name is the array-index-like string 5. -/
def rec5 : WorkoutRecord := ⟨some [⟨"5", none, none, none⟩]⟩

/-- the two-record input of the volume example: one exercise with sets 3 and
weight 10, then one exercise with sets 2 and weight 0. -/
def volRecords : List WorkoutRecord :=
  [⟨some [⟨"Bench Press", some 10, some 3, none⟩]⟩,
   ⟨some [⟨"Squat", some 0, some 2, none⟩]⟩]

/-- two records whose exercise names A and 5 are tied at one occurrence
each, A encountered first. -/
def tieRecords : List WorkoutRecord := [recA, rec5]

/-- a record carrying an empty exercise array. -/
def emptyExercisesRecord : WorkoutRecord := ⟨some []⟩

/-- a record with a missing (or non-array) exercisesPerformed field. -/
def noExRecord : WorkoutRecord := ⟨none⟩

/-- a fetched record dated 2024-01-01T00:00:00Z. -/
def histJan : FetchedWorkout := ⟨"w1", some 1704067200000⟩

/-- a fetched record with a null date. -/
def histNull : FetchedWorkout := ⟨"w2", none⟩

/-- a fetched record dated 2024-06-01T00:00:00Z. -/
def histJun : FetchedWorkout := ⟨"w3", some 1717200000000⟩

/-- a concrete draft entry. -/
def benchEntry : DraftEntry :=
  ⟨"Bench Press", NumVal.num 3, NumVal.num 5, NumVal.num 100, InputVal.empty⟩

/-- an authenticated session with an empty draft. -/
def emptyDraftSession : SessionState := ⟨true, [], []⟩

/-- an authenticated session whose draft holds one entry. -/
def benchSession : SessionState := ⟨true, [benchEntry], []⟩

/-- the guarded volume contribution of an entry coincides with the
specification's contribution: a present weight or sets equal to 0 fails the
truthiness guard, but the skipped product is 0 anyway. -/
lemma exVolume_eq_specExVolume (e : StatExercise) : exVolume e = specExVolume e := by
  rcases e with ⟨n, w, s, r⟩
  cases w with
  | none => simp [exVolume, specExVolume, numTruthy]
  | some w =>
    cases s with
    | none => simp [exVolume, specExVolume, numTruthy]
    | some s =>
      by_cases hw : w = 0
      · simp [exVolume, specExVolume, numTruthy, hw]
      · by_cases hs : s = 0
        · simp [exVolume, specExVolume, numTruthy, hw, hs]
        · simp [exVolume, specExVolume, numTruthy, hw, hs]

lemma computeStats_totalWorkouts (l : List WorkoutRecord) :
    (computeStats l).totalWorkouts = l.length := by
  cases l with
  | nil => simp [computeStats]
  | cons a t => simp [computeStats]

lemma computeStats_totalExercisesLogged (l : List WorkoutRecord) :
    (computeStats l).totalExercisesLogged = (l.map (fun w => (recExercises w).length)).sum := by
  cases l with
  | nil => simp [computeStats]
  | cons a t => simp [computeStats]

lemma computeStats_totalVolumeLifted (l : List WorkoutRecord) :
    (computeStats l).totalVolumeLifted =
      (l.map (fun w => ((recExercises w).map exVolume).sum)).sum := by
  cases l with
  | nil => simp [computeStats]
  | cons a t => simp [computeStats]

lemma computeStats_mostFrequentExercise (l : List WorkoutRecord) :
    (computeStats l).mostFrequentExercise = mostFrequentOf (exerciseCounts l) := by
  cases l with
  | nil => rfl
  | cons a t => simp [computeStats]

lemma computeStats_averageExercisesPerWorkout (l : List WorkoutRecord) :
    (computeStats l).averageExercisesPerWorkout =
      (if l.length = 0 then (0 : ℚ)
       else ((l.map (fun w => (recExercises w).length)).sum : ℚ) / (l.length : ℚ)) := by
  cases l with
  | nil => simp [computeStats]
  | cons a t => simp [computeStats]

/-- C1: for every record list, totalVolumeLifted is the sum of
weight * sets over every exercise entry whose weight and sets are both
present numeric values (reps play no role), and on the two-record input
with sets 3 / weight 10 and sets 2 / weight 0 it equals 30. -/
theorem c1_totalVolumeLifted :
    (∀ workouts : List WorkoutRecord,
        (computeStats workouts).totalVolumeLifted = specTotalVolume workouts) ∧
      (computeStats volRecords).totalVolumeLifted = 30 := by
  constructor
  · intro workouts
    rw [computeStats_totalVolumeLifted]
    unfold specTotalVolume
    rw [funext exVolume_eq_specExVolume]
  · rw [computeStats_totalVolumeLifted]
    norm_num [volRecords, recExercises, exVolume, numTruthy]

lemma countOf_bumpCount (m n : String) (acc : List (String × ℕ)) :
    countOf (bumpCount acc m) n = if n = m then countOf acc n + 1 else countOf acc n := by
  induction acc with
  | nil =>
    by_cases h : n = m
    · simp [bumpCount, countOf, h]
    · simp [bumpCount, countOf, h, Ne.symm h]
  | cons p rest ih =>
    obtain ⟨k, c⟩ := p
    by_cases hkm : k = m
    · by_cases hkn : k = n
      · have hnm : n = m := hkn.symm.trans hkm
        simp [bumpCount, countOf, hkm, hkn, hnm]
      · have hnm : ¬ n = m := fun h => hkn (hkm.trans h.symm)
        have hmn : ¬ m = n := fun h => hnm h.symm
        simp [bumpCount, countOf, hkm, hkn, hnm, hmn]
    · by_cases hkn : k = n
      · have hnm : ¬ n = m := fun h => hkm (hkn.trans h)
        simp [bumpCount, countOf, hkm, hkn, hnm]
      · simp [bumpCount, countOf, hkm, hkn, ih]

lemma keysOf_bumpCount (m : String) (acc : List (String × ℕ)) :
    keysOf (bumpCount acc m) = if m ∈ keysOf acc then keysOf acc else keysOf acc ++ [m] := by
  induction acc with
  | nil => simp [bumpCount, keysOf]
  | cons p rest ih =>
    obtain ⟨k, c⟩ := p
    by_cases hkm : k = m
    · subst hkm
      simp [bumpCount, keysOf, List.mem_cons]
    · have hmk : ¬ m = k := fun h => hkm h.symm
      have ih' : List.map Prod.fst (bumpCount rest m) =
          if m ∈ List.map Prod.fst rest then List.map Prod.fst rest
          else List.map Prod.fst rest ++ [m] := by
        simpa [keysOf] using ih
      simp only [bumpCount, if_neg hkm, keysOf, List.map_cons]
      rw [ih']
      by_cases hm : m ∈ List.map Prod.fst rest
      · simp [hm, List.mem_cons, hmk]
      · simp [hm, List.mem_cons, hmk]

lemma countOf_foldl_bumpCount (n : String) :
    ∀ (names : List String) (acc : List (String × ℕ)),
      countOf (names.foldl bumpCount acc) n = countOf acc n + names.count n := by
  intro names
  induction names with
  | nil => intro acc; simp
  | cons m rest ih =>
    intro acc
    simp only [List.foldl_cons, List.count_cons]
    rw [ih, countOf_bumpCount]
    by_cases h : n = m
    · have : (m == n) = true := beq_iff_eq.mpr h.symm
      simp [h, this]
      omega
    · have : (m == n) = false := beq_eq_false_iff_ne.mpr (fun hh => h hh.symm)
      simp [h, this]

lemma keysOf_foldl_bumpCount :
    ∀ (names : List String) (acc : List (String × ℕ)),
      keysOf (names.foldl bumpCount acc) =
        names.foldl (fun ks n => if n ∈ ks then ks else ks ++ [n]) (keysOf acc) := by
  intro names
  induction names with
  | nil => intro acc; simp
  | cons m rest ih =>
    intro acc
    simp only [List.foldl_cons]
    rw [ih, keysOf_bumpCount]

lemma nodup_keysOf_foldl_bumpCount :
    ∀ (names : List String) (acc : List (String × ℕ)),
      (keysOf acc).Nodup → (keysOf (names.foldl bumpCount acc)).Nodup := by
  intro names
  induction names with
  | nil => intro acc h; simpa using h
  | cons m rest ih =>
    intro acc h
    simp only [List.foldl_cons]
    apply ih
    rw [keysOf_bumpCount]
    by_cases hm : m ∈ keysOf acc
    · simpa [hm] using h
    · simp [hm, List.nodup_append, h]

lemma snd_eq_countOf :
    ∀ table : List (String × ℕ), (keysOf table).Nodup →
      ∀ p ∈ table, p.2 = countOf table p.1 := by
  intro table
  induction table with
  | nil => intro _ p hp; simp at hp
  | cons q rest ih =>
    intro hnd p hp
    obtain ⟨k, c⟩ := q
    have hnd' : k ∉ keysOf rest ∧ (keysOf rest).Nodup := by
      simpa [keysOf, List.nodup_cons] using hnd
    rcases List.mem_cons.mp hp with h | h
    · rw [h]
      simp [countOf]
    · have hk : p.1 ∈ keysOf rest := List.mem_map_of_mem Prod.fst h
      have hkne : ¬ k = p.1 := fun hh => hnd'.1 (hh ▸ hk)
      simp [countOf, hkne]
      exact ih hnd'.2 p h

lemma foldl_pairs_eq_foldl_keys (f : String → ℕ) :
    ∀ table : List (String × ℕ), (∀ p ∈ table, p.2 = f p.1) →
      ∀ acc : String × ℕ,
        table.foldl (fun a p => if p.2 > a.2 then p else a) acc =
          (keysOf table).foldl (fun a n => if f n > a.2 then (n, f n) else a) acc := by
  intro table
  induction table with
  | nil => intro _ acc; simp [keysOf]
  | cons q rest ih =>
    intro hf acc
    obtain ⟨k, c⟩ := q
    have hc : c = f k := hf (k, c) (List.mem_cons_self _ _)
    simp only [keysOf, List.map_cons, List.foldl_cons]
    rw [hc]
    exact ih (fun p hp => hf p (List.mem_cons_of_mem _ hp)) _

lemma mem_foldl_ins :
    ∀ (names : List String) (acc : List String) (x : String),
      x ∈ names.foldl (fun ks n => if n ∈ ks then ks else ks ++ [n]) acc ↔
        x ∈ acc ∨ x ∈ names := by
  intro names
  induction names with
  | nil => intro acc x; simp
  | cons n rest ih =>
    intro acc x
    simp only [List.foldl_cons]
    rw [ih]
    by_cases h : n ∈ acc
    · rw [if_pos h]
      simp only [List.mem_cons]
      constructor
      · rintro (hx | hx)
        · exact Or.inl hx
        · exact Or.inr (Or.inr hx)
      · rintro (hx | hx | hx)
        · exact Or.inl hx
        · exact Or.inl (hx ▸ h)
        · exact Or.inr hx
    · rw [if_neg h]
      simp only [List.mem_append, List.mem_cons, List.not_mem_nil, or_false, List.mem_singleton]
      constructor
      · rintro ((hx | hx) | hx)
        · exact Or.inl hx
        · exact Or.inr (Or.inl hx)
        · exact Or.inr (Or.inr hx)
      · rintro (hx | hx | hx)
        · exact Or.inl (Or.inl hx)
        · exact Or.inl (Or.inr hx)
        · exact Or.inr hx

lemma enumOrder_eq_self (counts : List (String × ℕ))
    (h : ∀ p ∈ counts, isArrayIndexKey p.1 = false) : enumOrder counts = counts := by
  unfold enumOrder
  have h1 : counts.filter (fun p => isArrayIndexKey p.1) = [] :=
    List.filter_eq_nil_iff.mpr (by intro a ha; simp [h a ha])
  have h2 : counts.filter (fun p => !isArrayIndexKey p.1) = counts :=
    List.filter_eq_self.mpr (by intro a ha; simp [h a ha])
  rw [h1, h2]
  rfl

/-- enumeration reorders the count table without changing its entries. -/
lemma enumOrder_perm (counts : List (String × ℕ)) : (enumOrder counts).Perm counts := by
  unfold enumOrder
  refine List.Perm.trans (List.Perm.append ?_ (List.Perm.refl _))
    (List.filter_append_perm (fun p => isArrayIndexKey p.1) counts)
  exact List.perm_insertionSort _ _

lemma exerciseCounts_eq_foldl (workouts : List WorkoutRecord) :
    exerciseCounts workouts = (allNames workouts).foldl bumpCount [] := by
  simp only [exerciseCounts, allNames, List.foldl_flatten, List.foldl_map]

lemma scan_snd (f : String → ℕ) :
    ∀ (l : List String) (acc : String × ℕ),
      (l.foldl (fun a n => if f n > a.2 then (n, f n) else a) acc).2 =
        l.foldl (fun m n => max m (f n)) acc.2 := by
  intro l
  induction l with
  | nil => intro acc; simp
  | cons n rest ih =>
    intro acc
    simp only [List.foldl_cons]
    rw [ih]
    congr 1
    by_cases h : f n > acc.2
    · simp [h, Nat.max_eq_right h.le]
    · simp [h, Nat.max_eq_left (Nat.le_of_not_lt h)]

lemma le_foldl_max (f : String → ℕ) :
    ∀ (l : List String) (a : ℕ),
      a ≤ l.foldl (fun m n => max m (f n)) a ∧
        ∀ n ∈ l, f n ≤ l.foldl (fun m n => max m (f n)) a := by
  intro l
  induction l with
  | nil => intro a; exact ⟨le_refl a, by simp⟩
  | cons n rest ih =>
    intro a
    simp only [List.foldl_cons]
    obtain ⟨h1, h2⟩ := ih (max a (f n))
    refine ⟨le_trans (Nat.le_max_left _ _) h1, ?_⟩
    intro k hk
    rcases List.mem_cons.mp hk with h | h
    · rw [h]
      exact le_trans (Nat.le_max_right a (f n)) h1
    · exact h2 k h

lemma scan_mem (f : String → ℕ) :
    ∀ (l : List String) (acc : String × ℕ),
      l.foldl (fun a n => if f n > a.2 then (n, f n) else a) acc = acc ∨
        ∃ n ∈ l, l.foldl (fun a n => if f n > a.2 then (n, f n) else a) acc = (n, f n) := by
  intro l
  induction l with
  | nil => intro acc; left; simp
  | cons n rest ih =>
    intro acc
    simp only [List.foldl_cons]
    by_cases h : f n > acc.2
    · rw [if_pos h]
      rcases ih (n, f n) with h1 | ⟨k, hk, h2⟩
      · exact Or.inr ⟨n, List.mem_cons_self _ _, h1⟩
      · exact Or.inr ⟨k, List.mem_cons_of_mem _ hk, h2⟩
    · rw [if_neg h]
      rcases ih acc with h1 | ⟨k, hk, h2⟩
      · exact Or.inl h1
      · exact Or.inr ⟨k, List.mem_cons_of_mem _ hk, h2⟩

/-- the strict-greater scan from the sentinel pair returns a name of maximal
weight whenever every listed name has positive weight. -/
lemma scan_count_max (f : String → ℕ) (l : List String)
    (hpos : ∀ n ∈ l, 0 < f n) :
    ∀ n ∈ l,
      f n ≤ f ((l.foldl (fun a k => if f k > a.2 then (k, f k) else a) ("N/A", 0)).1) := by
  intro n hn
  have h1 : f n ≤ (l.foldl (fun a k => if f k > a.2 then (k, f k) else a) ("N/A", 0)).2 := by
    rw [scan_snd]
    exact (le_foldl_max f l 0).2 n hn
  rcases scan_mem f l ("N/A", 0) with hr | ⟨k, _, hr⟩
  · rw [hr] at h1
    have := hpos n hn
    omega
  · rw [hr] at h1 ⊢
    exact h1

/-- C2 (corrected): the most-frequent tie-break follows JavaScript
own-property enumeration order, not first-encounter order.  The exercise
names A and 5 are tied at one occurrence each with A encountered first, yet
the reported most frequent exercise is 5, because the array-index-like key 5
enumerates before the creation-ordered key A in the `for...in` loop. -/
theorem c2_mostFrequent_tiebreak_cex :
    allNames tieRecords = ["A", "5"] ∧
      (allNames tieRecords).count "A" = 1 ∧
      (allNames tieRecords).count "5" = 1 ∧
      (computeStats tieRecords).mostFrequentExercise = "5" := by
  refine ⟨by decide, by decide, by decide, ?_⟩
  rw [computeStats_mostFrequentExercise]
  decide

lemma mem_firstEncounterNames (names : List String) (x : String) :
    x ∈ firstEncounterNames names ↔ x ∈ names := by
  unfold firstEncounterNames
  rw [mem_foldl_ins]
  simp

/-- the count table built by the nested loops assigns to every entry the
occurrence count of its name among all defaulted names, and its keys are
the distinct names in first-encounter order. -/
lemma exerciseCounts_spec (workouts : List WorkoutRecord) :
    (∀ p ∈ exerciseCounts workouts, p.2 = (allNames workouts).count p.1) ∧
      keysOf (exerciseCounts workouts) = firstEncounterNames (allNames workouts) := by
  have htab := exerciseCounts_eq_foldl workouts
  have hkeys : keysOf (exerciseCounts workouts) = firstEncounterNames (allNames workouts) := by
    rw [htab, keysOf_foldl_bumpCount]
    rfl
  have hnd : (keysOf (exerciseCounts workouts)).Nodup := by
    rw [htab]
    exact nodup_keysOf_foldl_bumpCount _ [] (by simp [keysOf])
  refine ⟨?_, hkeys⟩
  intro p hp
  have h1 := snd_eq_countOf _ hnd p hp
  rw [h1, htab, countOf_foldl_bumpCount]
  simp [countOf]

/-- C2 (amended): mostFrequentExercise is the string N/A on the empty
input; on every input it is a name occurring in the records whose
occurrence count is maximal, whatever the enumeration order; and on any
input in which no defaulted exercise name is an array-index-like string the
tie-break is first-encounter order: the result equals the specification
scan over distinct names in first-encounter order. -/
theorem c2_mostFrequentExercise_amended :
    (computeStats []).mostFrequentExercise = "N/A" ∧
      (∀ workouts : List WorkoutRecord,
        (allNames workouts ≠ [] →
          (computeStats workouts).mostFrequentExercise ∈ allNames workouts) ∧
        ∀ n ∈ allNames workouts,
          (allNames workouts).count n ≤
            (allNames workouts).count ((computeStats workouts).mostFrequentExercise)) ∧
      (∀ workouts : List WorkoutRecord,
        (∀ n ∈ allNames workouts, isArrayIndexKey n = false) →
          (computeStats workouts).mostFrequentExercise = specMostFrequent workouts ∧
          ∀ n ∈ allNames workouts,
            (allNames workouts).count n ≤
              (allNames workouts).count (specMostFrequent workouts)) := by
  refine ⟨rfl, ?_, ?_⟩
  · intro workouts
    obtain ⟨hcnt, hkeys⟩ := exerciseCounts_spec workouts
    have hperm := enumOrder_perm (exerciseCounts workouts)
    have hcntT : ∀ p ∈ enumOrder (exerciseCounts workouts),
        p.2 = (allNames workouts).count p.1 :=
      fun p hp => hcnt p (hperm.mem_iff.mp hp)
    have hkeysT : ∀ x : String,
        x ∈ keysOf (enumOrder (exerciseCounts workouts)) ↔
          x ∈ keysOf (exerciseCounts workouts) :=
      fun x => (hperm.map Prod.fst).mem_iff
    have hmemk : ∀ n ∈ allNames workouts,
        n ∈ keysOf (enumOrder (exerciseCounts workouts)) := by
      intro n hn
      refine (hkeysT n).mpr ?_
      rw [hkeys]
      exact (mem_firstEncounterNames _ _).mpr hn
    have hposk : ∀ k ∈ keysOf (enumOrder (exerciseCounts workouts)),
        0 < (allNames workouts).count k := by
      intro k hk
      have h2 := (hkeysT k).mp hk
      rw [hkeys] at h2
      exact List.count_pos_iff.mpr ((mem_firstEncounterNames _ _).mp h2)
    have hmf2 : (computeStats workouts).mostFrequentExercise =
        ((keysOf (enumOrder (exerciseCounts workouts))).foldl
          (fun a n =>
            if (allNames workouts).count n > a.2 then (n, (allNames workouts).count n) else a)
          ("N/A", 0)).1 := by
      rw [computeStats_mostFrequentExercise]
      unfold mostFrequentOf
      rw [foldl_pairs_eq_foldl_keys (fun n => (allNames workouts).count n) _ hcntT]
    have hmax : ∀ n ∈ allNames workouts,
        (allNames workouts).count n ≤
          (allNames workouts).count ((computeStats workouts).mostFrequentExercise) := by
      intro n hn
      rw [hmf2]
      exact scan_count_max (fun k => (allNames workouts).count k) _ hposk n (hmemk n hn)
    refine ⟨?_, hmax⟩
    intro hne
    obtain ⟨n0, hn0⟩ := List.exists_mem_of_ne_nil _ hne
    have h1 : 0 < (allNames workouts).count n0 := List.count_pos_iff.mpr hn0
    exact List.count_pos_iff.mp (lt_of_lt_of_le h1 (hmax n0 hn0))
  · intro workouts h
    obtain ⟨hcnt, hkeys⟩ := exerciseCounts_spec workouts
    have hmemkeys : ∀ p ∈ exerciseCounts workouts, p.1 ∈ allNames workouts := by
      intro p hp
      have hmem : p.1 ∈ keysOf (exerciseCounts workouts) := List.mem_map_of_mem Prod.fst hp
      rw [hkeys] at hmem
      exact (mem_firstEncounterNames _ _).mp hmem
    have hnoidx : ∀ p ∈ exerciseCounts workouts, isArrayIndexKey p.1 = false :=
      fun p hp => h p.1 (hmemkeys p hp)
    have henum := enumOrder_eq_self _ hnoidx
    have hpairs := foldl_pairs_eq_foldl_keys (fun n => (allNames workouts).count n) _ hcnt ("N/A", 0)
    have hmf : (computeStats workouts).mostFrequentExercise = specMostFrequent workouts := by
      rw [computeStats_mostFrequentExercise]
      unfold mostFrequentOf specMostFrequent
      rw [henum, hpairs, hkeys]
    refine ⟨hmf, ?_⟩
    intro n hn
    have hpos : ∀ k ∈ firstEncounterNames (allNames workouts),
        0 < (allNames workouts).count k := by
      intro k hk
      exact List.count_pos_iff.mpr ((mem_firstEncounterNames _ _).mp hk)
    have hne : n ∈ firstEncounterNames (allNames workouts) :=
      (mem_firstEncounterNames _ _).mpr hn
    exact scan_count_max (fun k => (allNames workouts).count k)
      (firstEncounterNames (allNames workouts)) hpos n hne

/-- witness for C2 (amended): at a one-record input with the non-index-like
name A the result lies among the names and equals the specification scan. -/
theorem c2_mostFrequentExercise_amended_w :
    (computeStats [recA]).mostFrequentExercise ∈ allNames [recA] ∧
      (computeStats [recA]).mostFrequentExercise = specMostFrequent [recA] :=
  ⟨(c2_mostFrequentExercise_amended.2.1 [recA]).1 (by decide),
   (c2_mostFrequentExercise_amended.2.2 [recA] (by decide)).1⟩

/-- C3 (corrected): the "exactly when" reading fails.  On the one-record
input whose exercise array is empty, totalWorkouts is 1 yet
averageExercisesPerWorkout is 0, so the average being 0 is not equivalent
to totalWorkouts being 0. -/
theorem c3_average_exactly_cex :
    ¬ (((computeStats [emptyExercisesRecord]).averageExercisesPerWorkout = 0) ↔
        ((computeStats [emptyExercisesRecord]).totalWorkouts = 0)) := by
  have h1 : (computeStats [emptyExercisesRecord]).averageExercisesPerWorkout = 0 := by
    rw [computeStats_averageExercisesPerWorkout]
    norm_num [emptyExercisesRecord, recExercises]
  have h2 : (computeStats [emptyExercisesRecord]).totalWorkouts = 1 := by
    rw [computeStats_totalWorkouts]
    rfl
  intro h
  have h3 := h.mp h1
  rw [h2] at h3
  exact one_ne_zero h3

/-- C3 (amended): totalExercisesLogged is the sum over all records of the
length of exercisesPerformed (0 for a missing or non-array field), and
averageExercisesPerWorkout is 0 when totalWorkouts is 0 and otherwise
equals totalExercisesLogged / totalWorkouts; the average can also be 0 with
a positive workout count when no exercise was logged. -/
theorem c3_totalExercises_average_amended :
    ∀ workouts : List WorkoutRecord,
      (computeStats workouts).totalExercisesLogged =
        (workouts.map (fun w => (recExercises w).length)).sum ∧
      (computeStats workouts).averageExercisesPerWorkout =
        (if (computeStats workouts).totalWorkouts = 0 then (0 : ℚ)
         else ((computeStats workouts).totalExercisesLogged : ℚ) /
           ((computeStats workouts).totalWorkouts : ℚ)) := by
  intro workouts
  refine ⟨computeStats_totalExercisesLogged workouts, ?_⟩
  rw [computeStats_averageExercisesPerWorkout, computeStats_totalWorkouts,
    computeStats_totalExercisesLogged]

/-- C4 (corrected): the aggregator output is not invariant under input
reordering.  Swapping two records whose exercise names are tied at one
occurrence each changes mostFrequentExercise, hence the output record. -/
theorem c4_not_perm_invariant_cex :
    List.Perm [recA, recB] [recB, recA] ∧
      computeStats [recA, recB] ≠ computeStats [recB, recA] := by
  refine ⟨List.Perm.swap recB recA [], fun h => ?_⟩
  have h2 : (computeStats [recA, recB]).mostFrequentExercise =
      (computeStats [recB, recA]).mostFrequentExercise := by rw [h]
  rw [computeStats_mostFrequentExercise, computeStats_mostFrequentExercise] at h2
  revert h2
  decide

/-- C4 (amended): the four numeric output fields - totalWorkouts,
totalExercisesLogged, totalVolumeLifted and averageExercisesPerWorkout -
are invariant under every permutation of the input record list;
mostFrequentExercise is not, as its tie-break depends on encounter order. -/
theorem c4_perm_invariant_amended :
    ∀ l1 l2 : List WorkoutRecord, l1.Perm l2 →
      (computeStats l1).totalWorkouts = (computeStats l2).totalWorkouts ∧
      (computeStats l1).totalExercisesLogged = (computeStats l2).totalExercisesLogged ∧
      (computeStats l1).totalVolumeLifted = (computeStats l2).totalVolumeLifted ∧
      (computeStats l1).averageExercisesPerWorkout =
        (computeStats l2).averageExercisesPerWorkout := by
  intro l1 l2 hp
  have hlen : l1.length = l2.length := hp.length_eq
  have hex : (l1.map (fun w => (recExercises w).length)).sum =
      (l2.map (fun w => (recExercises w).length)).sum :=
    (hp.map (fun w => (recExercises w).length)).sum_eq
  have hvol : (l1.map (fun w => ((recExercises w).map exVolume).sum)).sum =
      (l2.map (fun w => ((recExercises w).map exVolume).sum)).sum :=
    (hp.map (fun w => ((recExercises w).map exVolume).sum)).sum_eq
  refine ⟨?_, ?_, ?_, ?_⟩
  · rw [computeStats_totalWorkouts, computeStats_totalWorkouts, hlen]
  · rw [computeStats_totalExercisesLogged, computeStats_totalExercisesLogged, hex]
  · rw [computeStats_totalVolumeLifted, computeStats_totalVolumeLifted, hvol]
  · rw [computeStats_averageExercisesPerWorkout, computeStats_averageExercisesPerWorkout,
      hlen, hex]

/-- witness for C4 (amended) at a concrete transposition. -/
theorem c4_perm_invariant_amended_w :
    (computeStats [recA, recB]).totalVolumeLifted =
      (computeStats [recB, recA]).totalVolumeLifted :=
  (c4_perm_invariant_amended [recA, recB] [recB, recA] (List.Perm.swap recB recA [])).2.2.1

/-- C10: a non-empty input in which no record carries any exercise entry
(an empty, missing or non-array exercisesPerformed) still reports
mostFrequentExercise N/A, totalExercisesLogged 0 and totalVolumeLifted 0,
with a positive totalWorkouts. -/
theorem c10_no_exercise_entries :
    ∀ workouts : List WorkoutRecord, workouts ≠ [] →
      (∀ w ∈ workouts, recExercises w = []) →
      (computeStats workouts).totalWorkouts = workouts.length ∧
      0 < (computeStats workouts).totalWorkouts ∧
      (computeStats workouts).totalExercisesLogged = 0 ∧
      (computeStats workouts).totalVolumeLifted = 0 ∧
      (computeStats workouts).mostFrequentExercise = "N/A" := by
  intro ws hne h
  have hex : (ws.map (fun w => (recExercises w).length)).sum = 0 := by
    apply List.sum_eq_zero
    intro x hx
    rcases List.mem_map.mp hx with ⟨w, hw, rfl⟩
    simp [h w hw]
  have hvol : (ws.map (fun w => ((recExercises w).map exVolume).sum)).sum = 0 := by
    apply List.sum_eq_zero
    intro x hx
    rcases List.mem_map.mp hx with ⟨w, hw, rfl⟩
    simp [h w hw]
  have hnames : allNames ws = [] := by
    unfold allNames
    rw [List.flatten_eq_nil_iff]
    intro l hl
    rcases List.mem_map.mp hl with ⟨w, hw, rfl⟩
    simp [h w hw]
  have hcounts : exerciseCounts ws = [] := by
    rw [exerciseCounts_eq_foldl, hnames]
    rfl
  refine ⟨computeStats_totalWorkouts ws, ?_, ?_, ?_, ?_⟩
  · rw [computeStats_totalWorkouts]
    exact List.length_pos.mpr hne
  · rw [computeStats_totalExercisesLogged, hex]
  · rw [computeStats_totalVolumeLifted, hvol]
  · rw [computeStats_mostFrequentExercise, hcounts]
    rfl

/-- witness for C10 at the one-record input with a missing exercise array. -/
theorem c10_no_exercise_entries_w :
    (computeStats [noExRecord]).totalExercisesLogged = 0 ∧
      (computeStats [noExRecord]).mostFrequentExercise = "N/A" :=
  ⟨(c10_no_exercise_entries [noExRecord] (by decide) (by decide)).2.2.1,
   (c10_no_exercise_entries [noExRecord] (by decide) (by decide)).2.2.2.2⟩

/-- C5: the emitted record list is a permutation of the fetched records
sorted by date descending under the key that maps a null or missing date to
timestamp 0; whenever every present date has a positive timestamp the null
dates therefore come last; and on records dated 2024-01-01, null,
2024-06-01 the emitted order is 2024-06-01, 2024-01-01, null. -/
theorem c5_historySynchronizer_sorted :
    (∀ l : List FetchedWorkout, (sortWorkouts l).Perm l) ∧
      (∀ l : List FetchedWorkout,
        List.Sorted (fun a b => sortKey b ≤ sortKey a) (sortWorkouts l)) ∧
      (∀ l : List FetchedWorkout, (∀ w ∈ l, w.date = none ∨ 0 < sortKey w) →
        List.Pairwise (fun a b => a.date = none → b.date = none) (sortWorkouts l)) ∧
      sortWorkouts [histJan, histNull, histJun] = [histJun, histJan, histNull] := by
  refine ⟨?_, ?_, ?_, ?_⟩
  · intro l
    exact List.perm_insertionSort _ l
  · intro l
    exact List.sorted_insertionSort _ l
  · intro l h
    have hs := List.sorted_insertionSort (fun a b => sortKey b ≤ sortKey a) l
    have hperm := List.perm_insertionSort (fun a b => sortKey b ≤ sortKey a) l
    refine List.Pairwise.imp_of_mem ?_ hs
    intro a b _ hb hr hnone
    rcases h b (hperm.mem_iff.mp hb) with hb0 | hbpos
    · exact hb0
    · exfalso
      have ha0 : sortKey a = 0 := by simp [sortKey, hnone]
      rw [ha0] at hr
      omega
  · decide

/-- witness for C5's nulls-last clause at the concrete three-record input. -/
theorem c5_historySynchronizer_sorted_w :
    List.Pairwise (fun a b => a.date = none → b.date = none)
      (sortWorkouts [histJan, histNull, histJun]) :=
  c5_historySynchronizer_sorted.2.2.1 [histJan, histNull, histJun] (by decide)

lemma getq_handleUpdateExerciseDetails (draft : List DraftEntry) (i : ℕ) (f : Field)
    (v : InputVal) :
    (handleUpdateExerciseDetails draft i f v)[i]? =
      (draft[i]?).map (fun e => setEntryField e f v) := by
  unfold handleUpdateExerciseDetails
  rw [List.getElem?_mapIdx]
  cases draft[i]? <;> simp

lemma getq_handleUpdateExerciseDetails_other (draft : List DraftEntry) (i : ℕ) (f : Field)
    (v : InputVal) (j : ℕ) (h : j ≠ i) :
    (handleUpdateExerciseDetails draft i f v)[j]? = draft[j]? := by
  unfold handleUpdateExerciseDetails
  rw [List.getElem?_mapIdx]
  cases draft[j]? <;> simp [h]

/-- C6: an authenticated save rejects an empty draft with a validation
error and leaves the state untouched, and on a non-empty draft appends
exactly one record holding the whole normalised exercise list to the store
and resets the draft; the normalisation maps an empty-string numeric field
to 0 and keeps a parsed number as is, with notes passed through. -/
theorem c6_handleSaveWorkout :
    ∀ s : SessionState, s.authed = true →
      (s.draft = [] → handleSaveWorkout s = (SubmitOutcome.validationError, s)) ∧
      (s.draft ≠ [] →
        handleSaveWorkout s =
          (SubmitOutcome.saved,
            { authed := s.authed, draft := [],
              store := s.store ++ [{ exercisesPerformed := s.draft.map submitEntry }] })) ∧
      (∀ ex : DraftEntry,
        submitEntry ex =
          { exerciseName := ex.exerciseName, sets := submitNum ex.sets,
            reps := submitNum ex.reps, weight := submitNum ex.weight, notes := ex.notes }) ∧
      submitNum NumVal.emptyStr = 0 ∧ (∀ q : ℚ, submitNum (NumVal.num q) = q) := by
  intro s hauth
  refine ⟨?_, ?_, fun ex => rfl, rfl, fun q => rfl⟩
  · intro hd
    simp [handleSaveWorkout, hauth, hd]
  · intro hd
    simp [handleSaveWorkout, hauth, List.length_eq_zero, hd]

/-- witness for C6 at an empty and at a one-entry authenticated session. -/
theorem c6_handleSaveWorkout_w :
    handleSaveWorkout emptyDraftSession = (SubmitOutcome.validationError, emptyDraftSession) ∧
      handleSaveWorkout benchSession =
        (SubmitOutcome.saved,
          { authed := true, draft := [],
            store := [] ++ [{ exercisesPerformed := [benchEntry].map submitEntry }] }) :=
  ⟨(c6_handleSaveWorkout emptyDraftSession rfl).1 rfl,
   (c6_handleSaveWorkout benchSession rfl).2.1 (by simp [benchSession])⟩

/-- C7: adding a catalog entry whose name is already in the draft leaves
the draft unchanged and surfaces the duplicate warning; a fresh name is
appended with defaults sets 1, reps 1, weight empty, notes empty; name
uniqueness of the draft is preserved by every call; and two successive adds
of the same name from the empty draft leave one entry and warn. -/
theorem c7_handleAddExerciseToWorkout :
    ∀ (draft : List DraftEntry) (ex : CatalogEntry),
      ((∃ item ∈ draft, item.exerciseName = ex.name) →
        handleAddExerciseToWorkout draft ex = (draft, true)) ∧
      ((∀ item ∈ draft, item.exerciseName ≠ ex.name) →
        handleAddExerciseToWorkout draft ex =
          (draft ++ [{ exerciseName := ex.name, sets := NumVal.num 1, reps := NumVal.num 1,
                       weight := NumVal.emptyStr, notes := InputVal.empty }], false)) ∧
      ((draft.map DraftEntry.exerciseName).Nodup →
        ((handleAddExerciseToWorkout draft ex).1.map DraftEntry.exerciseName).Nodup) ∧
      ((handleAddExerciseToWorkout (handleAddExerciseToWorkout [] ex).1 ex).1.length = 1 ∧
        (handleAddExerciseToWorkout (handleAddExerciseToWorkout [] ex).1 ex).2 = true) := by
  intro draft ex
  refine ⟨?_, ?_, ?_, ?_⟩
  · rintro ⟨item, hmem, hname⟩
    have hdup : draft.any (fun item => item.exerciseName == ex.name) = true :=
      List.any_eq_true.mpr ⟨item, hmem, by simp [hname]⟩
    simp [handleAddExerciseToWorkout, hdup]
  · intro hall
    have hdup : draft.any (fun item => item.exerciseName == ex.name) = false :=
      List.any_eq_false.mpr (fun item hmem => by simp [hall item hmem])
    simp [handleAddExerciseToWorkout, hdup]
  · intro hnd
    by_cases hdup : draft.any (fun item => item.exerciseName == ex.name)
    · simpa [handleAddExerciseToWorkout, hdup] using hnd
    · have hnotin : ex.name ∉ draft.map DraftEntry.exerciseName := by
        intro hmem
        rcases List.mem_map.mp hmem with ⟨item, hitem, hname⟩
        exact hdup (List.any_eq_true.mpr ⟨item, hitem, by simp [hname]⟩)
      simp [handleAddExerciseToWorkout, hdup, List.nodup_append, hnd, hnotin]
  · constructor
    · simp [handleAddExerciseToWorkout]
    · simp [handleAddExerciseToWorkout]

/-- witness for C7: adding a fresh name to the empty draft appends the
defaulted entry without a warning. -/
theorem c7_handleAddExerciseToWorkout_w :
    handleAddExerciseToWorkout [] ⟨"Bench Press"⟩ =
      ([{ exerciseName := "Bench Press", sets := NumVal.num 1, reps := NumVal.num 1,
          weight := NumVal.emptyStr, notes := InputVal.empty }], false) :=
  (c7_handleAddExerciseToWorkout [] ⟨"Bench Press"⟩).2.1 (by simp)

/-- C8: updating a numeric field stores the empty string unchanged when the
input is the empty string and otherwise the parsed value clamped to be at
least 0 (an unparsable input is stored as 0); the notes field passes
through verbatim; and a stored empty string is normalised to 0 only by the
save-time mapping. -/
theorem c8_handleUpdateExerciseDetails_numeric :
    (∀ (draft : List DraftEntry) (i : ℕ) (f : Field) (v : InputVal),
        (handleUpdateExerciseDetails draft i f v)[i]? =
          (draft[i]?).map (fun e => setEntryField e f v)) ∧
      normalizeNumInput InputVal.empty = NumVal.emptyStr ∧
      (∀ q : ℚ, normalizeNumInput (InputVal.numStr q) = NumVal.num (max 0 q)) ∧
      (∀ s : String, normalizeNumInput (InputVal.nanStr s) = NumVal.num 0) ∧
      (∀ (e : DraftEntry) (v : InputVal),
        setEntryField e Field.notes v = { e with notes := v }) ∧
      (∀ e : DraftEntry,
        (setEntryField e Field.weight InputVal.empty).weight = NumVal.emptyStr) ∧
      (∀ e : DraftEntry, (submitEntry e).weight = submitNum e.weight) ∧
      submitNum NumVal.emptyStr = 0 := by
  refine ⟨getq_handleUpdateExerciseDetails, rfl, ?_, fun s => ?_, fun e v => rfl,
    fun e => rfl, fun e => rfl, rfl⟩
  · intro q
    by_cases h : q = 0
    · simp [normalizeNumInput, h]
    · simp [normalizeNumInput, h]
  · simp [normalizeNumInput]

/-- C9: updating one field of one draft entry changes nothing else: the
draft length is preserved, entries at other indices are untouched, the
entry at the updated index changes only through the named field, and every
other field of that entry keeps its value. -/
theorem c9_handleUpdateExerciseDetails_frame :
    ∀ (draft : List DraftEntry) (i : ℕ) (f : Field) (v : InputVal),
      (handleUpdateExerciseDetails draft i f v).length = draft.length ∧
      (∀ j : ℕ, j ≠ i → (handleUpdateExerciseDetails draft i f v)[j]? = draft[j]?) ∧
      (handleUpdateExerciseDetails draft i f v)[i]? =
        (draft[i]?).map (fun e => setEntryField e f v) ∧
      (∀ e : DraftEntry, (setEntryField e f v).exerciseName = e.exerciseName) ∧
      (f ≠ Field.sets → ∀ e : DraftEntry, (setEntryField e f v).sets = e.sets) ∧
      (f ≠ Field.reps → ∀ e : DraftEntry, (setEntryField e f v).reps = e.reps) ∧
      (f ≠ Field.weight → ∀ e : DraftEntry, (setEntryField e f v).weight = e.weight) ∧
      (f ≠ Field.notes → ∀ e : DraftEntry, (setEntryField e f v).notes = e.notes) := by
  intro draft i f v
  refine ⟨?_, fun j hj => getq_handleUpdateExerciseDetails_other draft i f v j hj,
    getq_handleUpdateExerciseDetails draft i f v, ?_, ?_, ?_, ?_, ?_⟩
  · unfold handleUpdateExerciseDetails
    exact List.length_mapIdx
  · intro e
    cases f <;> simp [setEntryField]
  · intro hf e
    cases f
    · exact absurd rfl hf
    · simp [setEntryField]
    · simp [setEntryField]
    · simp [setEntryField]
  · intro hf e
    cases f
    · simp [setEntryField]
    · exact absurd rfl hf
    · simp [setEntryField]
    · simp [setEntryField]
  · intro hf e
    cases f
    · simp [setEntryField]
    · simp [setEntryField]
    · exact absurd rfl hf
    · simp [setEntryField]
  · intro hf e
    cases f
    · simp [setEntryField]
    · simp [setEntryField]
    · simp [setEntryField]
    · exact absurd rfl hf

/-- witness for C9 at a one-entry draft, updating index 1 and reading
index 0, and checking the weight of a sets update. -/
theorem c9_handleUpdateExerciseDetails_frame_w :
    (handleUpdateExerciseDetails [benchEntry] 1 Field.sets (InputVal.numStr 4))[0]? =
        some benchEntry ∧
      (setEntryField benchEntry Field.sets (InputVal.numStr 4)).weight = benchEntry.weight := by
  constructor
  · rw [(c9_handleUpdateExerciseDetails_frame [benchEntry] 1 Field.sets
      (InputVal.numStr 4)).2.1 0 (by decide)]
    rfl
  · exact (c9_handleUpdateExerciseDetails_frame [benchEntry] 1 Field.sets
      (InputVal.numStr 4)).2.2.2.2.2.2.1 (by decide) benchEntry

end WorkoutTracker
